import Mathlib

/-!
Shallow embedding of the locale-routing middleware (src/proxy.ts), the job
normalizer (src/lib/jobs-api.ts) and the careers-page client filter
(src/app/[lang]/careers/CareersClient.tsx) of the company-prototype
repository, together with theorems settling the spec claims about them.

JS strings are modelled as `List Char` (one entry per UTF-16-visible
character; all strings relevant here are BMP-only, where JS code-unit
indexing and character indexing agree).  JS helpers (`includes`,
`toLowerCase`, `trim`, `||` with falsy strings, regex replaces used by the
source) are modelled by the structurally recursive functions below.
-/

namespace CompanySpec

/-- Convert a Lean string literal to the character-list model of a JS string. -/
def str (s : String) : List Char := s.toList

/-- Model of JS `s.includes(sub)`: `sub` occurs contiguously in `s`.
JS returns true for the empty needle. -/
def jsIncludes : List Char → List Char → Bool
  | [], sub => sub.isEmpty
  | s@(_ :: rest), sub => sub.isPrefixOf s || jsIncludes rest sub

/-- The JS whitespace class `\s` (the members occurring in practice:
space, tab, newline, carriage return, vertical tab, form feed). -/
def isJsWs (c : Char) : Bool :=
  c == ' ' || c == '\t' || c == '\n' || c == '\r' ||
  c == Char.ofNat 11 || c == Char.ofNat 12

/-- Model of JS `String.prototype.trim`: drop whitespace from both ends. -/
def trimWs (l : List Char) : List Char :=
  ((l.dropWhile isJsWs).reverse.dropWhile isJsWs).reverse

/-- Worker for `stripTags`.  `pending` holds (reversed) the characters read
since an as-yet-unclosed `<`; it is empty exactly when the scanner is not
inside a candidate tag. -/
def stripTagsGo : List Char → List Char → List Char
  | [], pending => pending.reverse
  | c :: rest, pending =>
    if pending.isEmpty then
      if c == '<' then stripTagsGo rest [c]
      else c :: stripTagsGo rest []
    else
      if c == '>' then ' ' :: stripTagsGo rest []
      else stripTagsGo rest (c :: pending)

/-- Model of `description.replace(/<[^>]*>/g, " ")` from `extractDescription`
(src/lib/jobs-api.ts line 310): each leftmost `<...>` group — a `<` up to the
first following `>` — is replaced by one space; a `<` with no later `>` cannot
be matched by the regex and is kept verbatim. -/
def stripTags (l : List Char) : List Char := stripTagsGo l []

/-- Worker for `collapseWs`; the flag records whether the previous character
was whitespace (i.e. the current run has already emitted its space). -/
def collapseWsGo : List Char → Bool → List Char
  | [], _ => []
  | c :: rest, prevWs =>
    if isJsWs c then
      if prevWs then collapseWsGo rest true else ' ' :: collapseWsGo rest true
    else c :: collapseWsGo rest false

/-- Model of `text.replace(/\s+/g, " ")` from `extractDescription`
(src/lib/jobs-api.ts line 312): every maximal run of whitespace becomes a
single space. -/
def collapseWs (l : List Char) : List Char := collapseWsGo l false

/-- `extractDescription` (src/lib/jobs-api.ts lines 306-318): strip HTML tags,
collapse whitespace runs, trim, and cut to the first 200 characters followed
by "..." when longer than 200.  The leading emptiness test models the JS
falsy check `if (!description) return ""`. -/
def extractDescription (description : List Char) : List Char :=
  if description.isEmpty then []
  else
    let text := trimWs (collapseWs (stripTags description))
    if 200 < text.length then text.take 200 ++ str "..." else text

/-- Exact-match department table from `transformJob`
(src/lib/jobs-api.ts lines 137-148). -/
def departmentMap : List (List Char × List Char) :=
  [(str "ENGINEERING", str "engineering"), (str "AI", str "ai"),
   (str "AI/ML", str "ai"), (str "AIML", str "ai"),
   (str "PRODUCT", str "product"), (str "DESIGN", str "design"),
   (str "BUSINESS", str "business"), (str "OPERATIONS", str "operations"),
   (str "SALES", str "business"), (str "MARKETING", str "business")]

/-- JS object-literal property lookup `map[key]`, as first-match association
lookup (the keys here never collide with Object.prototype properties). -/
def lookupAssoc : List (List Char × List Char) → List Char → Option (List Char)
  | [], _ => none
  | (k, v) :: rest, key => if k == key then some v else lookupAssoc rest key

/-- Department normalization inlined in `transformJob`
(src/lib/jobs-api.ts lines 136-168): uppercase + trim the raw department,
try the exact table, then the keyword-substring chain, and finally default
to "engineering".  `Char.toUpper` models JS `toUpperCase` (the table and
keywords are ASCII; Korean characters are unaffected by either). -/
def normalizeDepartment (dept : List Char) : List Char :=
  let up := trimWs (dept.map Char.toUpper)
  match lookupAssoc departmentMap up with
  | some d => d
  | none =>
    if jsIncludes up (str "ENGINEERING") || jsIncludes up (str "SOFTWARE") ||
        jsIncludes up (str "DEVELOPER") then str "engineering"
    else if jsIncludes up (str "AI") || jsIncludes up (str "ML") ||
        jsIncludes up (str "MACHINE LEARNING") then str "ai"
    else if jsIncludes up (str "PRODUCT") then str "product"
    else if jsIncludes up (str "DESIGN") || jsIncludes up (str "UX") ||
        jsIncludes up (str "UI") then str "design"
    else if jsIncludes up (str "BUSINESS") || jsIncludes up (str "SALES") ||
        jsIncludes up (str "MARKETING") then str "business"
    else str "engineering"

/-- `parseLocation` (src/lib/jobs-api.ts lines 225-250). -/
def parseLocation (location : List Char) (isRemote : Bool) : List Char :=
  if isRemote then str "remote"
  else
    let locationLower := location.map Char.toLower
    if jsIncludes locationLower (str "seoul") || jsIncludes locationLower (str "서울") ||
        jsIncludes locationLower (str "성남") || jsIncludes locationLower (str "seongnam") ||
        jsIncludes locationLower (str "판교") || jsIncludes locationLower (str "pangyo") then
      str "seoul"
    else if jsIncludes locationLower (str "busan") || jsIncludes locationLower (str "부산") then
      str "busan"
    else if jsIncludes locationLower (str "hybrid") then str "hybrid"
    else str "seoul"

/-- `inferExperience` (src/lib/jobs-api.ts lines 264-292): scan the lowercased
concatenation "title description" for keyword sets in priority order
senior, mid, junior, entry; with no keyword, return "senior" when the title
alone contains "senior", else "mid". -/
def inferExperience (title description : List Char) : List Char :=
  let text := (title ++ ' ' :: description).map Char.toLower
  if jsIncludes text (str "senior") || jsIncludes text (str "시니어") ||
      jsIncludes text (str "5년") || jsIncludes text (str "5+") then str "senior"
  else if jsIncludes text (str "mid") || jsIncludes text (str "미들") ||
      jsIncludes text (str "3-5년") then str "mid"
  else if jsIncludes text (str "junior") || jsIncludes text (str "주니어") ||
      jsIncludes text (str "1-3년") then str "junior"
  else if jsIncludes text (str "entry") || jsIncludes text (str "신입") ||
      jsIncludes text (str "new grad") then str "entry"
  else if jsIncludes (title.map Char.toLower) (str "senior") then str "senior"
  else str "mid"

/-- Employment-type table from `transformJob` (src/lib/jobs-api.ts
lines 174-179). -/
def typeMap : List (List Char × List Char) :=
  [(str "FullTime", str "fullTime"), (str "Contract", str "contract"),
   (str "Intern", str "intern"), (str "PartTime", str "contract")]

/-- `typeMap[ashbyJob.employmentType] || "fullTime"` (src/lib/jobs-api.ts
line 180); every table value is non-empty, so the falsy fallback fires
exactly on a missing key. -/
def mapEmploymentType (employmentType : List Char) : List Char :=
  match lookupAssoc typeMap employmentType with
  | some t => t
  | none => str "fullTime"

/-- JS `a || b` for two strings: the empty string is falsy. -/
def jsOrStr (a b : List Char) : List Char := if a.isEmpty then b else a

/-- JS `a || b` where `a` is an optional string field: `undefined` and `""`
are both falsy. -/
def jsOrOpt (a : Option (List Char)) (b : List Char) : List Char :=
  match a with
  | none => b
  | some s => if s.isEmpty then b else s

/-- `AshbyJob` (src/lib/jobs-api.ts lines 12-34).  The fields
`secondaryLocations` and `address` are omitted: no code under src/ reads
them. -/
structure AshbyJob where
  id : List Char
  title : List Char
  department : List Char
  team : Option (List Char)
  employmentType : List Char
  location : List Char
  publishedAt : List Char
  isListed : Bool
  isRemote : Bool
  jobUrl : List Char
  applyUrl : List Char
  descriptionHtml : List Char
  descriptionPlain : List Char
deriving DecidableEq

/-- Internal `Job` (src/lib/jobs-api.ts lines 49-64). -/
structure Job where
  id : List Char
  title : List Char
  department : List Char
  originalDepartment : Option (List Char)
  experience : List Char
  location : List Char
  originalLocation : Option (List Char)
  type : List Char
  workType : List Char
  description : List Char
  jobUrl : List Char
  applyUrl : List Char
  team : Option (List Char)
  publishedAt : List Char
deriving DecidableEq

/-- `transformJob` (src/lib/jobs-api.ts lines 133-208). -/
def transformJob (ashbyJob : AshbyJob) : Job :=
  { id := ashbyJob.id
    title := ashbyJob.title
    department := normalizeDepartment ashbyJob.department
    originalDepartment := some ashbyJob.department
    experience := inferExperience ashbyJob.title ashbyJob.descriptionPlain
    location := parseLocation ashbyJob.location ashbyJob.isRemote
    originalLocation := some ashbyJob.location
    type := mapEmploymentType ashbyJob.employmentType
    workType := if ashbyJob.isRemote then str "remote" else str "hybrid"
    description := extractDescription (jsOrStr ashbyJob.descriptionPlain ashbyJob.descriptionHtml)
    jobUrl := ashbyJob.jobUrl
    applyUrl := ashbyJob.applyUrl
    team := ashbyJob.team
    publishedAt := ashbyJob.publishedAt }

/-- Shape of the `jobs` field of the parsed upstream body, as tested by
`fetchJobs` (src/lib/jobs-api.ts line 101): absent/falsy, present but not an
array, or an array of raw postings. -/
inductive JobsField where
  | missing
  | nonArray
  | array (jobs : List AshbyJob)
deriving DecidableEq

/-- Outcome of the upstream `fetch` call observed by `fetchJobs`: the fetch
(or body read) throws, or an HTTP response arrives with an ok flag
(`response.ok`, i.e. 2xx) and a parsed body whose `jobs` field has the given
shape. -/
inductive FetchOutcome where
  | networkThrow
  | response (ok : Bool) (jobsField : JobsField)
deriving DecidableEq

/-- `fetchJobs` (src/lib/jobs-api.ts lines 83-118), as a function of the
upstream outcome: every throw inside the `try` block (network failure, the
explicit non-2xx throw, the explicit shape-validation throw) is caught and
becomes `[]`; otherwise the raw list is filtered to `isListed` entries and
transformed. -/
def fetchJobs : FetchOutcome → List Job
  | .networkThrow => []
  | .response ok jobsField =>
    if ok then
      match jobsField with
      | .array jobs => (jobs.filter (fun job => job.isListed)).map transformJob
      | _ => []
    else []

/-! ### Locale resolver (src/proxy.ts) -/

/-- `i18n.locales` (src/i18n-config.ts). -/
def localesList : List (List Char) := [str "ko", str "en"]

/-- `i18n.defaultLocale` (src/i18n-config.ts). -/
def defaultLocale : List Char := str "ko"

/-- The `pathnameIsMissingLocale` test of `proxy` (src/proxy.ts lines 71-73):
no supported locale is a `/{locale}/` prefix of the pathname nor equal to the
whole pathname as `/{locale}`. -/
def pathnameIsMissingLocale (pathname : List Char) : Bool :=
  localesList.all (fun locale =>
    !(('/' :: locale ++ ['/']).isPrefixOf pathname) && !(pathname == '/' :: locale))

/-- Split a character list at every occurrence of `sep` (worker). -/
def splitOnCharGo : List Char → Char → List Char → List (List Char)
  | [], _, acc => [acc.reverse]
  | c :: rest, sep, acc =>
    if c == sep then acc.reverse :: splitOnCharGo rest sep []
    else splitOnCharGo rest sep (c :: acc)

/-- Split a character list at every occurrence of `sep`. -/
def splitOnChar (sep : Char) (l : List Char) : List (List Char) :=
  splitOnCharGo l sep []

/-- Value of a non-empty all-digit character list (worker). -/
def digitsValGo : List Char → Nat → Option Nat
  | [], n => some n
  | c :: rest, n =>
    if c.isDigit then digitsValGo rest (n * 10 + (c.toNat - 48)) else none

/-- Value of a non-empty all-digit character list; `none` when empty or when
any character is not a decimal digit. -/
def digitsVal : List Char → Option Nat
  | [] => none
  | l => digitsValGo l 0

/-- Modelled from the spec: quality-value parsing done inside the third-party
Accept-Language negotiation (Negotiator), which is not part of src/.  A
quality value "d" or "d.ddd" is scaled to thousandths; anything else is
malformed. -/
def parseQVal (s : List Char) : Option Nat :=
  match splitOnChar '.' s with
  | [ip] => (digitsVal ip).map (fun n => n * 1000)
  | [ip, fp] =>
    match digitsVal ip, digitsVal (fp.take 3) with
    | some i, some f => some (i * 1000 + f * 10 ^ (3 - (fp.take 3).length))
    | _, _ => none
  | _ => none

/-- A plausible Accept-Language language-range character. -/
def validTagChar (c : Char) : Bool := c.isAlphanum || c == '-' || c == '*'

/-- A syntactically acceptable language range: non-empty, made of
alphanumerics, '-' and '*'. -/
def validTag (tag : List Char) : Bool := !tag.isEmpty && tag.all validTagChar

/-- Modelled from the spec: parsing of one Accept-Language list entry
("tag" or "tag;q=value", possibly with other parameters) by the third-party
negotiation libraries, which are not part of src/.  A malformed tag or a
malformed/zero quality value makes the entry unusable (`none`). -/
def parseEntry (entry : List Char) : Option (List Char × Nat) :=
  match splitOnChar ';' entry with
  | [] => none
  | tagPart :: params =>
    let tag := trimWs tagPart
    if validTag tag then
      let qs := params.filterMap (fun p =>
        let p := trimWs p
        if (str "q=").isPrefixOf p then some (p.drop 2) else none)
      match qs with
      | [] => some (tag, 1000)
      | qv :: _ =>
        match parseQVal qv with
        | some 0 => none
        | some q => some (tag, q)
        | none => none
    else none

/-- Modelled from the spec: "parse acceptLanguageHeader into a ranked list of
language tags with quality weights" (spec section 4.1), standing in for the
third-party Negotiator library, which is not part of src/.  An absent header
or a header with no well-formed entry yields the empty list. -/
def parseAcceptLanguage : Option (List Char) → List (List Char × Nat)
  | none => []
  | some h => (splitOnChar ',' h).filterMap parseEntry

/-- Stable insertion (by descending quality weight) used to rank parsed
Accept-Language entries. -/
def insertByQ (x : List Char × Nat) : List (List Char × Nat) → List (List Char × Nat)
  | [] => [x]
  | y :: ys => if y.2 ≤ x.2 then x :: y :: ys else y :: insertByQ x ys

/-- Stable sort by descending quality weight. -/
def sortByQDesc : List (List Char × Nat) → List (List Char × Nat)
  | [] => []
  | x :: xs => insertByQ x (sortByQDesc xs)

/-- The parsed Accept-Language tags in preference order (best first). -/
def rankedTags (h : Option (List Char)) : List (List Char) :=
  (sortByQDesc (parseAcceptLanguage h)).map (fun e => e.1)

/-- Modelled from the spec: BCP-47 language-range matching against one
supported locale (spec section 4.1), standing in for the third-party
intl-localematcher library, which is not part of src/.  A range matches a
locale when it equals it case-insensitively, when its primary subtag does,
or when it is the wildcard. -/
def tagMatches (tag locale : List Char) : Bool :=
  let t := tag.map Char.toLower
  t == locale || t.takeWhile (fun c => !(c == '-')) == locale || t == ['*']

/-- First supported locale matched by any ranked tag, scanning tags in
preference order. -/
def firstMatch : List (List Char) → Option (List Char)
  | [] => none
  | t :: rest =>
    match localesList.find? (fun locale => tagMatches t locale) with
    | some locale => some locale
    | none => firstMatch rest

/-- `getLocale` (src/proxy.ts lines 28-47).  The two third-party calls it
makes (Negotiator language listing, intl-localematcher matching) are modelled
from the spec by `rankedTags` and `firstMatch`; when nothing matches, the
configured default locale is returned (spec section 4.1). -/
def getLocale (acceptLanguage : Option (List Char)) : List Char :=
  match firstMatch (rankedTags acceptLanguage) with
  | some locale => locale
  | none => defaultLocale

/-- Result of the middleware: a redirect to a locale-prefixed target, or a
passthrough of the unchanged pathname (on which the source then sets its
fixed security headers). -/
inductive ProxyResult where
  | redirect (target : List Char)
  | passthrough (pathname : List Char)
deriving DecidableEq

/-- `proxy` (src/proxy.ts lines 66-110): when the pathname is missing a
locale prefix, redirect to `/{locale}{pathname}`, inserting a `/` exactly
when the pathname does not already start with one; otherwise pass through. -/
def proxy (pathname : List Char) (acceptLanguage : Option (List Char)) : ProxyResult :=
  if pathnameIsMissingLocale pathname then
    .redirect (('/' :: getLocale acceptLanguage) ++
      (if (['/'] : List Char).isPrefixOf pathname then [] else ['/']) ++ pathname)
  else .passthrough pathname

/-! ### Careers-page client logic (src/app/[lang]/careers/CareersClient.tsx) -/

/-- Model of `new Date(s).getTime()` restricted to the ISO-8601 timestamp
strings of `publishedAt`: the concatenated decimal digits of the string.
For a single fixed ISO layout this is strictly monotone in the instant, so
it induces the same ordering as the JS epoch value. -/
def dateDigitsVal (s : List Char) : Nat :=
  (s.filter Char.isDigit).foldl (fun n c => n * 10 + (c.toNat - 48)) 0

/-- Insertion step of the stable sort by descending `publishedAt`, matching
the comparator `(a, b) => getTime(b) - getTime(a)`. -/
def insertByDateDesc (j : Job) : List Job → List Job
  | [] => [j]
  | k :: ks =>
    if dateDigitsVal k.publishedAt ≤ dateDigitsVal j.publishedAt then j :: k :: ks
    else k :: insertByDateDesc j ks

/-- Stable sort of jobs by descending `publishedAt`, the effect of
`jobs.sort((a, b) => new Date(b.publishedAt).getTime() - new Date(a.publishedAt).getTime())`
(JS sorts are stable). -/
def sortByDateDesc : List Job → List Job
  | [] => []
  | j :: rest => insertByDateDesc j (sortByDateDesc rest)

/-- The `featuredJobs` computation (CareersClient.tsx lines 133-137).
JS `Array.prototype.sort` sorts the array IN PLACE and returns that same
array, so the computation both produces the featured list (`.take 5` of the
sorted array, first component) and leaves the `jobs` array itself sorted
(second component: the contents of `jobs` after the call). -/
def featuredJobsCompute (jobs : List Job) : List Job × List Job :=
  let sorted := sortByDateDesc jobs
  (sorted.take 5, sorted)

/-- The five `useState` filter dimensions of `CareersClient`
(CareersClient.tsx lines 49-57); each JS `Set<string>` is modelled as a
duplicate-free-irrelevant membership list. -/
structure FilterState where
  searchQuery : List Char
  selectedDepartments : List (List Char)
  selectedWorkTypes : List (List Char)
  selectedLocations : List (List Char)
  selectedCompanies : List (List Char)
deriving DecidableEq

/-- The per-job predicate of the `filteredJobs` useMemo
(CareersClient.tsx lines 145-194): conjunction of the search, department,
work-type, location and company checks, each skipped when its dimension has
no active selection (`size > 0` / falsy-empty query). -/
def jobMatchesFilters (fs : FilterState) (job : Job) : Bool :=
  (if fs.searchQuery.isEmpty then true
   else
     jsIncludes
       ((job.title ++ ' ' :: job.description ++ ' ' :: jsOrOpt job.team []).map Char.toLower)
       (fs.searchQuery.map Char.toLower)) &&
  (if fs.selectedDepartments.isEmpty then true
   else fs.selectedDepartments.contains (jsOrOpt job.originalDepartment job.department)) &&
  (if fs.selectedWorkTypes.isEmpty then true
   else fs.selectedWorkTypes.contains job.type) &&
  (if fs.selectedLocations.isEmpty then true
   else fs.selectedLocations.contains (jsOrOpt job.originalLocation job.location)) &&
  (if fs.selectedCompanies.isEmpty then true
   else
     let jobLoc := (jsOrOpt job.originalLocation job.location).map Char.toLower
     let isShanghai := jsIncludes jobLoc (str "shanghai") || jsIncludes jobLoc (str "상하이") ||
       jsIncludes jobLoc (str "shanghai, china")
     fs.selectedCompanies.contains (if isShanghai then str "company China" else str "company"))

/-- The `filteredJobs` useMemo (CareersClient.tsx lines 145-194). -/
def filteredJobs (fs : FilterState) (jobs : List Job) : List Job :=
  jobs.filter (jobMatchesFilters fs)

/-- Filter state with department selection {"ai"} and everything else
inactive, as in claim C9. -/
def aiOnlyFilter : FilterState :=
  { searchQuery := []
    selectedDepartments := [str "ai"]
    selectedWorkTypes := []
    selectedLocations := []
    selectedCompanies := [] }

/-! ### Helper lemmas -/

/-- `jsIncludes` decides contiguous-substring containment. -/
theorem jsIncludes_iff_infix (s sub : List Char) :
    jsIncludes s sub = true ↔ sub <:+: s := by
  induction s with
  | nil => simp [jsIncludes, List.isEmpty_iff]
  | cons c rest ih =>
    simp [jsIncludes, List.infix_cons_iff, ih, List.isPrefixOf_iff_prefix]

/-- A successful association lookup returns one of the table's values. -/
theorem lookupAssoc_mem_values {m : List (List Char × List Char)} {key v : List Char}
    (h : lookupAssoc m key = some v) : v ∈ m.map Prod.snd := by
  induction m with
  | nil => simp [lookupAssoc] at h
  | cons p rest ih =>
    obtain ⟨k, w⟩ := p
    simp only [lookupAssoc] at h
    split at h
    · cases h; simp
    · simpa using Or.inr (ih h)

/-- `firstMatch` only returns supported locales. -/
theorem firstMatch_mem {ts : List (List Char)} {loc : List Char}
    (h : firstMatch ts = some loc) : loc ∈ localesList := by
  induction ts with
  | nil => simp [firstMatch] at h
  | cons t rest ih =>
    simp only [firstMatch] at h
    split at h
    · cases h; exact List.mem_of_find?_eq_some (by assumption)
    · exact ih h

/-! ### Concrete sample inputs for witnesses and counterexamples -/

/-- A listed, remote raw posting. -/
def rawRemoteSample : AshbyJob :=
  { id := str "r1", title := str "Engineer", department := str "AI"
    team := none, employmentType := str "FullTime", location := str "Anywhere"
    publishedAt := str "2024-03-01T00:00:00Z", isListed := true, isRemote := true
    jobUrl := str "https://jobs.example/r1", applyUrl := str "https://jobs.example/r1/apply"
    descriptionHtml := str "", descriptionPlain := str "desc" }

/-- A listed Seoul posting whose raw department is exactly "ai". -/
def rawSeoulSample : AshbyJob :=
  { id := str "s1", title := str "Engineer", department := str "ai"
    team := none, employmentType := str "FullTime", location := str "Seoul"
    publishedAt := str "2024-01-01T00:00:00Z", isListed := true, isRemote := false
    jobUrl := str "https://jobs.example/s1", applyUrl := str "https://jobs.example/s1/apply"
    descriptionHtml := str "", descriptionPlain := str "desc" }

/-- A listed posting whose raw department is "Engineering". -/
def rawEngineeringSample : AshbyJob :=
  { id := str "e1", title := str "Engineer", department := str "Engineering"
    team := none, employmentType := str "FullTime", location := str "Seoul"
    publishedAt := str "2024-02-01T00:00:00Z", isListed := true, isRemote := false
    jobUrl := str "https://jobs.example/e1", applyUrl := str "https://jobs.example/e1/apply"
    descriptionHtml := str "", descriptionPlain := str "desc" }

/-- An unlisted raw posting. -/
def rawUnlistedSample : AshbyJob :=
  { id := str "u1", title := str "Engineer", department := str "Design"
    team := none, employmentType := str "FullTime", location := str "Seoul"
    publishedAt := str "2024-01-15T00:00:00Z", isListed := false, isRemote := false
    jobUrl := str "https://jobs.example/u1", applyUrl := str "https://jobs.example/u1/apply"
    descriptionHtml := str "", descriptionPlain := str "desc" }

/-- A listed posting whose department and location match no normalization
rule at all. -/
def rawUnmatchedSample : AshbyJob :=
  { id := str "q1", title := str "Specialist", department := str "Quality Assurance"
    team := none, employmentType := str "FullTime", location := str "Tokyo"
    publishedAt := str "2024-01-20T00:00:00Z", isListed := true, isRemote := false
    jobUrl := str "https://jobs.example/q1", applyUrl := str "https://jobs.example/q1/apply"
    descriptionHtml := str "", descriptionPlain := str "desc" }

/-! ### Claim theorems -/

/-- C1: for every invocation of `fetchJobs` where the upstream call throws
(network failure), where the HTTP response is non-2xx (`ok = false`), or
where the parsed body lacks an array-valued `jobs` field (absent or
non-array), the result is the empty list.  Nothing escapes the fetch
boundary: in the model this is witnessed by `fetchJobs` being a total
function into `List Job`. -/
theorem fetchJobs_degrades_to_empty :
    fetchJobs FetchOutcome.networkThrow = [] ∧
    (∀ jobsField, fetchJobs (FetchOutcome.response false jobsField) = []) ∧
    (∀ ok, fetchJobs (FetchOutcome.response ok JobsField.missing) = [] ∧
      fetchJobs (FetchOutcome.response ok JobsField.nonArray) = []) := by
  refine ⟨rfl, fun _ => rfl, fun ok => ?_⟩
  cases ok <;> exact ⟨rfl, rfl⟩

/-- C4: every raw posting with `isRemote = true` transforms to a job with
`workType = "remote"` and normalized location `"remote"`, regardless of the
location text. -/
theorem transformJob_remote (ashbyJob : AshbyJob) (h : ashbyJob.isRemote = true) :
    (transformJob ashbyJob).workType = str "remote" ∧
    (transformJob ashbyJob).location = str "remote" := by
  simp [transformJob, parseLocation, h]

/-- C4 witness: a concrete remote posting. -/
theorem transformJob_remote_witness :
    (transformJob rawRemoteSample).workType = str "remote" ∧
    (transformJob rawRemoteSample).location = str "remote" :=
  transformJob_remote rawRemoteSample (by decide)

/-- C6: on a successful response, `fetchJobs` filters to `isListed = true`
before transforming, so every job in its result comes from a listed raw
posting — no posting with `isListed = false` appears, and unlisted postings
are dropped silently rather than reported as an error. -/
theorem fetchJobs_drops_unlisted (jobs : List AshbyJob) :
    fetchJobs (FetchOutcome.response true (JobsField.array jobs)) =
      (jobs.filter (fun job => job.isListed)).map transformJob ∧
    ∀ j ∈ fetchJobs (FetchOutcome.response true (JobsField.array jobs)),
      ∃ raw ∈ jobs, raw.isListed = true ∧ transformJob raw = j := by
  refine ⟨rfl, ?_⟩
  intro j hj
  simp only [fetchJobs, eq_self_iff_true, if_true, List.mem_map, List.mem_filter] at hj
  obtain ⟨raw, ⟨hmem, hlist⟩, rfl⟩ := hj
  exact ⟨raw, hmem, hlist, rfl⟩

/-- C6 witness: a feed holding one listed and one unlisted posting. -/
theorem fetchJobs_drops_unlisted_witness :
    ∃ raw ∈ [rawSeoulSample, rawUnlistedSample],
      raw.isListed = true ∧ transformJob raw = transformJob rawSeoulSample :=
  (fetchJobs_drops_unlisted [rawSeoulSample, rawUnlistedSample]).2
    (transformJob rawSeoulSample) (by decide)

/-- The experience keywords scanned by `inferExperience`, in scan order. -/
def experienceKeywords : List (List Char) :=
  [str "senior", str "시니어", str "5년", str "5+", str "mid", str "미들",
   str "3-5년", str "junior", str "주니어", str "1-3년", str "entry",
   str "신입", str "new grad"]

/-- C10: when the lowercased concatenation of title and description contains
none of the experience keywords, `inferExperience` returns "mid": the
`senior`-from-title-only fallback branch is unreachable, because a title
containing "senior" already makes the concatenated text contain "senior" and
is caught by the first branch. -/
theorem inferExperience_no_keyword_fallback_mid (title description : List Char)
    (h : ∀ k ∈ experienceKeywords,
      jsIncludes ((title ++ ' ' :: description).map Char.toLower) k = false) :
    inferExperience title description = str "mid" := by
  have hsp : Char.toLower ' ' = ' ' := by decide
  simp only [List.map_append, List.map_cons, hsp] at h
  have hts : jsIncludes (title.map Char.toLower) (str "senior") = false := by
    by_contra hc
    rw [Bool.not_eq_false, jsIncludes_iff_infix] at hc
    have hinf : (str "senior") <:+:
        title.map Char.toLower ++ ' ' :: description.map Char.toLower :=
      hc.trans (List.prefix_append _ _).isInfix
    rw [← jsIncludes_iff_infix] at hinf
    have hfalse := h (str "senior") (by decide)
    rw [hfalse] at hinf
    exact Bool.false_ne_true hinf
  simp only [inferExperience]
  simp [List.map_append, List.map_cons, hsp,
    h (str "senior") (by decide), h (str "시니어") (by decide),
    h (str "5년") (by decide), h (str "5+") (by decide),
    h (str "mid") (by decide), h (str "미들") (by decide),
    h (str "3-5년") (by decide), h (str "junior") (by decide),
    h (str "주니어") (by decide), h (str "1-3년") (by decide),
    h (str "entry") (by decide), h (str "신입") (by decide),
    h (str "new grad") (by decide), hts]

/-- C10 witness: a concrete keyword-free title and description. -/
theorem inferExperience_no_keyword_fallback_mid_witness :
    inferExperience (str "Engineer") (str "builds things") = str "mid" :=
  inferExperience_no_keyword_fallback_mid (str "Engineer") (str "builds things")
    (by decide)

/-- The closed department vocabulary of the normalizer. -/
def departmentTargets : List (List Char) :=
  [str "engineering", str "ai", str "product", str "design", str "business",
   str "operations"]

/-- The closed location vocabulary of the normalizer. -/
def locationTargets : List (List Char) :=
  [str "seoul", str "busan", str "remote", str "hybrid"]

/-- The keyword substrings of the department fallback chain. -/
def deptKeywords : List (List Char) :=
  [str "ENGINEERING", str "SOFTWARE", str "DEVELOPER", str "AI", str "ML",
   str "MACHINE LEARNING", str "PRODUCT", str "DESIGN", str "UX", str "UI",
   str "BUSINESS", str "SALES", str "MARKETING"]

/-- The keyword substrings of the location chain. -/
def locKeywords : List (List Char) :=
  [str "seoul", str "서울", str "성남", str "seongnam", str "판교", str "pangyo",
   str "busan", str "부산", str "hybrid"]

/-- `normalizeDepartment` always lands in the closed vocabulary. -/
theorem normalizeDepartment_mem (dept : List Char) :
    normalizeDepartment dept ∈ departmentTargets := by
  simp only [normalizeDepartment]
  split
  · rename_i v hv
    have hv2 : v ∈ [str "engineering", str "ai", str "ai", str "ai", str "product",
        str "design", str "business", str "operations", str "business", str "business"] := by
      simpa [departmentMap] using lookupAssoc_mem_values hv
    fin_cases hv2 <;> decide
  · split_ifs <;> decide

/-- `parseLocation` always lands in the closed vocabulary. -/
theorem parseLocation_mem (location : List Char) (isRemote : Bool) :
    parseLocation location isRemote ∈ locationTargets := by
  simp only [parseLocation]
  split_ifs <;> decide

/-- With no exact table hit and no keyword hit, the department falls back to
"engineering". -/
theorem normalizeDepartment_fallback (dept : List Char)
    (h1 : lookupAssoc departmentMap (trimWs (dept.map Char.toUpper)) = none)
    (h2 : ∀ k ∈ deptKeywords,
      jsIncludes (trimWs (dept.map Char.toUpper)) k = false) :
    normalizeDepartment dept = str "engineering" := by
  simp only [normalizeDepartment, h1]
  simp [h2 (str "ENGINEERING") (by decide), h2 (str "SOFTWARE") (by decide),
    h2 (str "DEVELOPER") (by decide), h2 (str "AI") (by decide),
    h2 (str "ML") (by decide), h2 (str "MACHINE LEARNING") (by decide),
    h2 (str "PRODUCT") (by decide), h2 (str "DESIGN") (by decide),
    h2 (str "UX") (by decide), h2 (str "UI") (by decide),
    h2 (str "BUSINESS") (by decide), h2 (str "SALES") (by decide),
    h2 (str "MARKETING") (by decide)]

/-- With `isRemote = false` and no keyword hit, the location falls back to
"seoul". -/
theorem parseLocation_fallback (location : List Char)
    (h2 : ∀ k ∈ locKeywords,
      jsIncludes (location.map Char.toLower) k = false) :
    parseLocation location false = str "seoul" := by
  simp only [parseLocation]
  simp [h2 (str "seoul") (by decide), h2 (str "서울") (by decide),
    h2 (str "성남") (by decide), h2 (str "seongnam") (by decide),
    h2 (str "판교") (by decide), h2 (str "pangyo") (by decide),
    h2 (str "busan") (by decide), h2 (str "부산") (by decide),
    h2 (str "hybrid") (by decide)]

/-- C5: for every raw posting, whatever its free-text fields, the transformed
job carries exactly one normalized department from
{engineering, ai, product, design, business, operations} and exactly one
normalized location from {seoul, busan, remote, hybrid}; and when nothing
matches — no exact department-table hit and no department keyword, resp.
not remote and no location keyword — the fallbacks "engineering" and
"seoul" apply. -/
theorem transformJob_closed_vocabulary (ashbyJob : AshbyJob) :
    (transformJob ashbyJob).department ∈ departmentTargets ∧
    (transformJob ashbyJob).location ∈ locationTargets ∧
    ((lookupAssoc departmentMap (trimWs (ashbyJob.department.map Char.toUpper)) = none ∧
      ∀ k ∈ deptKeywords,
        jsIncludes (trimWs (ashbyJob.department.map Char.toUpper)) k = false) →
      (transformJob ashbyJob).department = str "engineering") ∧
    ((ashbyJob.isRemote = false ∧
      ∀ k ∈ locKeywords,
        jsIncludes (ashbyJob.location.map Char.toLower) k = false) →
      (transformJob ashbyJob).location = str "seoul") := by
  refine ⟨normalizeDepartment_mem _, parseLocation_mem _ _, ?_, ?_⟩
  · intro ⟨h1, h2⟩
    exact normalizeDepartment_fallback _ h1 h2
  · intro ⟨h1, h2⟩
    show parseLocation ashbyJob.location ashbyJob.isRemote = str "seoul"
    rw [h1]
    exact parseLocation_fallback _ h2

set_option maxRecDepth 8192 in
/-- C5 witness: a posting whose department and location match nothing, so
both fallbacks fire. -/
theorem transformJob_closed_vocabulary_witness :
    (transformJob rawUnmatchedSample).department = str "engineering" ∧
    (transformJob rawUnmatchedSample).location = str "seoul" :=
  ⟨(transformJob_closed_vocabulary rawUnmatchedSample).2.2.1 ⟨by decide, by decide⟩,
   (transformJob_closed_vocabulary rawUnmatchedSample).2.2.2 ⟨by decide, by decide⟩⟩

set_option maxRecDepth 100000 in
/-- C7 counterexample: on an input of 201 non-whitespace characters the
output of `extractDescription` has length 203 (200 kept characters plus the
three-character ellipsis "..."), so the output is not "at most 200
characters long" as the claim states. -/
theorem extractDescription_over_200_counterexample :
    ¬ ((extractDescription (List.replicate 201 'a')).length ≤ 200) := by decide

/-- C7 (amended): the description output is the input with HTML tags
stripped at tag boundaries, whitespace runs collapsed to single spaces, and
trimmed; when that cleaned text is at most 200 characters it is returned
unchanged, and when it is longer the output is its first 200 characters
followed by the ellipsis "...", for a total length of 203 — the ellipsis is
appended exactly when truncation occurred. -/
theorem extractDescription_stages (description : List Char) :
    ((trimWs (collapseWs (stripTags description))).length ≤ 200 →
      extractDescription description = trimWs (collapseWs (stripTags description))) ∧
    (200 < (trimWs (collapseWs (stripTags description))).length →
      extractDescription description =
        (trimWs (collapseWs (stripTags description))).take 200 ++ str "..." ∧
      (extractDescription description).length = 203) := by
  by_cases hd : description.isEmpty = true
  · have hnil : description = [] := by simpa [List.isEmpty_iff] using hd
    subst hnil
    exact ⟨fun _ => rfl, fun hlen => by simp [trimWs, collapseWs, collapseWsGo,
      stripTags, stripTagsGo] at hlen⟩
  · constructor
    · intro hlen
      simp only [extractDescription, if_neg hd]
      rw [if_neg (by omega)]
    · intro hlen
      have he : extractDescription description =
          (trimWs (collapseWs (stripTags description))).take 200 ++ str "..." := by
        simp only [extractDescription, if_neg hd]
        rw [if_pos hlen]
      refine ⟨he, ?_⟩
      rw [he]
      simp only [List.length_append, List.length_take]
      have : (str "...").length = 3 := by decide
      omega

set_option maxRecDepth 100000 in
/-- C7 witness: a short HTML description is returned cleaned and unchanged;
a 201-character description is truncated to total length 203. -/
theorem extractDescription_stages_witness :
    extractDescription (str "<p>Hi</p>") =
      trimWs (collapseWs (stripTags (str "<p>Hi</p>"))) ∧
    (extractDescription (List.replicate 201 'a')).length = 203 :=
  ⟨(extractDescription_stages (str "<p>Hi</p>")).1 (by decide),
   ((extractDescription_stages (List.replicate 201 'a')).2 (by decide)).2⟩

/-- An older concrete job, first in upstream order. -/
def jobOlderSample : Job :=
  { id := str "j1", title := str "Backend Engineer", department := str "engineering"
    originalDepartment := some (str "Engineering"), experience := str "mid"
    location := str "seoul", originalLocation := some (str "Seoul")
    type := str "fullTime", workType := str "hybrid", description := str "d"
    jobUrl := str "https://jobs.example/j1", applyUrl := str "https://jobs.example/j1/apply"
    team := none, publishedAt := str "2024-01-01T00:00:00Z" }

/-- A newer concrete job, second in upstream order. -/
def jobNewerSample : Job :=
  { jobOlderSample with id := str "j2", publishedAt := str "2024-02-01T00:00:00Z" }

set_option maxRecDepth 8192 in
/-- C8 (code bug): computing the featured view is NOT a read-only projection
over the base list.  `jobs.sort(...)` (CareersClient.tsx line 135) sorts the
`jobs` prop array in place, so on a two-element list arriving in upstream
(older-first) order the base array is left reordered newest-first — not
unchanged and no longer in upstream order, contrary to the claim and to the
spec's "rather than mutating the base list". -/
theorem featuredJobsCompute_mutates_base :
    (featuredJobsCompute [jobOlderSample, jobNewerSample]).2 =
      [jobNewerSample, jobOlderSample] ∧
    (featuredJobsCompute [jobOlderSample, jobNewerSample]).2 ≠
      [jobOlderSample, jobNewerSample] := by decide

set_option maxRecDepth 16384 in
/-- Pointwise form of the C9 filter contract on transformed jobs: with only
the department dimension active and set to {"ai"}, a transformed job passes
the filter exactly when its original (raw) department string is "ai". -/
theorem aiFilter_matches_iff (raw : AshbyJob) :
    jobMatchesFilters aiOnlyFilter (transformJob raw) =
      ((transformJob raw).originalDepartment == some (str "ai")) := by
  by_cases hd : raw.department.isEmpty = true
  · have hnil : raw.department = [] := by simpa [List.isEmpty_iff] using hd
    simp only [jobMatchesFilters, aiOnlyFilter, transformJob, jsOrOpt, hnil]
    simp
    decide
  · simp only [jobMatchesFilters, aiOnlyFilter, transformJob, jsOrOpt]
    rw [if_neg hd]
    simp only [List.isEmpty_nil, List.isEmpty_cons, eq_self_iff_true, if_true,
      Bool.false_eq_true, if_false, Bool.true_and, Bool.and_true,
      List.contains_cons, List.contains_nil, Bool.or_false]
    rfl

/-- C9: over job lists produced by the transformation pipeline (as every
list reaching the careers client is), filtering with department selection
{"ai"} and all other dimensions inactive returns exactly the postings whose
`originalDepartment` equals "ai" — the filter compares the original
free-text department string, not the normalized bucket. -/
theorem filteredJobs_ai_original_department (jobs : List Job)
    (h : ∀ j ∈ jobs, ∃ raw, j = transformJob raw) :
    filteredJobs aiOnlyFilter jobs =
      jobs.filter (fun j => j.originalDepartment == some (str "ai")) := by
  unfold filteredJobs
  apply List.filter_congr
  intro j hj
  obtain ⟨raw, rfl⟩ := h j hj
  exact aiFilter_matches_iff raw

/-- C9 witness: a two-job pipeline output, one with raw department "ai" and
one with raw department "Engineering". -/
theorem filteredJobs_ai_original_department_witness :
    filteredJobs aiOnlyFilter [transformJob rawSeoulSample, transformJob rawEngineeringSample] =
      [transformJob rawSeoulSample, transformJob rawEngineeringSample].filter
        (fun j => j.originalDepartment == some (str "ai")) :=
  filteredJobs_ai_original_department _ (by
    intro j hj
    simp only [List.mem_cons, List.not_mem_nil, or_false] at hj
    rcases hj with rfl | rfl
    · exact ⟨rawSeoulSample, rfl⟩
    · exact ⟨rawEngineeringSample, rfl⟩)

/-- C2: the locale resolver is total over all string inputs — `getLocale`
and `proxy` as embedded here are total Lean functions, so no path or header
value (absent, empty, or malformed) can throw — and on any pathname without
a supported locale prefix, an Accept-Language header whose value parses to
no usable entry (absent, empty, or malformed, i.e. `rankedTags` is empty)
produces a redirect whose target uses the default locale: it has the form
"/ko/<path>". -/
theorem proxy_default_locale_on_unparseable (pathname : List Char)
    (acceptLanguage : Option (List Char))
    (hmiss : pathnameIsMissingLocale pathname = true)
    (hal : rankedTags acceptLanguage = []) :
    proxy pathname acceptLanguage =
      ProxyResult.redirect (('/' :: defaultLocale) ++
        (if (['/'] : List Char).isPrefixOf pathname then [] else ['/']) ++ pathname) ∧
    ∀ target, proxy pathname acceptLanguage = ProxyResult.redirect target →
      (str "/ko/").isPrefixOf target = true := by
  have hloc : getLocale acceptLanguage = defaultLocale := by
    simp [getLocale, hal, firstMatch]
  have h1 : proxy pathname acceptLanguage =
      ProxyResult.redirect (('/' :: defaultLocale) ++
        (if (['/'] : List Char).isPrefixOf pathname then [] else ['/']) ++ pathname) := by
    simp [proxy, hmiss, hloc]
  refine ⟨h1, ?_⟩
  intro target ht
  rw [h1] at ht
  injection ht with ht2
  subst ht2
  rw [List.isPrefixOf_iff_prefix]
  cases hsp : (['/'] : List Char).isPrefixOf pathname
  · simp only [hsp, Bool.false_eq_true, if_false]
    exact ⟨pathname, rfl⟩
  · have hsp2 := hsp
    rw [List.isPrefixOf_iff_prefix] at hsp2
    obtain ⟨t, ht3⟩ := hsp2
    simp only [hsp, if_true]
    refine ⟨t, ?_⟩
    rw [← ht3]
    rfl

/-- C2 witness: the pathname "/about" with the unparseable header ";;;". -/
theorem proxy_default_locale_on_unparseable_witness :
    proxy (str "/about") (some (str ";;;")) =
      ProxyResult.redirect (('/' :: defaultLocale) ++
        (if (['/'] : List Char).isPrefixOf (str "/about") then [] else ['/']) ++
        str "/about") :=
  (proxy_default_locale_on_unparseable (str "/about") (some (str ";;;"))
    (by decide) (by decide)).1

/-- C3: for every pathname missing a supported locale prefix (it neither
starts with "/{locale}/" nor equals "/{locale}" for any supported locale)
and any Accept-Language header, `proxy` redirects to a target that, fed back
to `proxy` under any header, resolves to passthrough — idempotence after one
redirect hop. -/
theorem proxy_redirect_then_passthrough (pathname : List Char)
    (acceptLanguage acceptLanguage2 : Option (List Char))
    (hmiss : pathnameIsMissingLocale pathname = true) :
    ∃ target, proxy pathname acceptLanguage = ProxyResult.redirect target ∧
      proxy target acceptLanguage2 = ProxyResult.passthrough target := by
  have hloc : getLocale acceptLanguage ∈ localesList := by
    unfold getLocale
    split
    · rename_i l hl
      exact firstMatch_mem hl
    · decide
  set loc := getLocale acceptLanguage with hlocdef
  set target := ('/' :: loc) ++
      (if (['/'] : List Char).isPrefixOf pathname then [] else ['/']) ++ pathname
    with htarget
  have h1 : proxy pathname acceptLanguage = ProxyResult.redirect target := by
    simp [proxy, hmiss, htarget]
  have hpre : ('/' :: (loc ++ ['/'])).isPrefixOf target = true := by
    rw [List.isPrefixOf_iff_prefix, htarget]
    cases hsp : (['/'] : List Char).isPrefixOf pathname
    · simp only [hsp, Bool.false_eq_true, if_false]
      exact ⟨pathname, by simp⟩
    · have hsp2 := hsp
      rw [List.isPrefixOf_iff_prefix] at hsp2
      obtain ⟨t, ht3⟩ := hsp2
      simp only [hsp, if_true]
      refine ⟨t, ?_⟩
      rw [← ht3]
      simp
  have hnm : pathnameIsMissingLocale target = false := by
    have hcases : loc = str "ko" ∨ loc = str "en" := by
      simpa [localesList] using hloc
    rcases hcases with h | h <;> rw [h] at hpre <;>
      simp [pathnameIsMissingLocale, localesList, hpre]
  refine ⟨target, h1, ?_⟩
  simp [proxy, hnm]

/-- C3 witness: the pathname "/careers" with absent headers on both hops. -/
theorem proxy_redirect_then_passthrough_witness :
    ∃ target, proxy (str "/careers") none = ProxyResult.redirect target ∧
      proxy target none = ProxyResult.passthrough target :=
  proxy_redirect_then_passthrough (str "/careers") none none (by decide)

end CompanySpec
